import Mathlib

/-!
A shallow embedding of the sharp-loader webpack loader (src/unnamed/part_000)
together with proofs about its safe serializer, preset expansion, transform
pipeline, option normalization, naming and orchestration code.

JavaScript values flowing through the serializer are modelled by the
inductive type `JSValue`; numbers carry their rendered literal text, since
the serializer only ever consumes the text produced by template
interpolation.  Machine floating point formatting is not re-implemented;
no claim depends on it.
-/

namespace SharpLoader

/-- Model of a JavaScript value as seen by the loader's serializer.
`serializable` models an instance of the `Serializable` class: it carries
the text its `render` closure produces.  `num` carries the literal text of
the number (what a template literal would print for it). -/
inductive JSValue where
  | null
  | bool (b : Bool)
  | num (s : String)
  | str (s : String)
  | arr (xs : List JSValue)
  | obj (fields : List (String × JSValue))
  | serializable (render : String)

/-- The `UNICODE_CHARS` escape table from the source (lines 12-22), as a
function: the escape text for each of the nine characters in the table.
The table is only consulted on characters matched by the regex in
`safeString`, so the value on other characters is immaterial. -/
def UNICODE_CHARS (c : Char) : String :=
  if c = '"' then "\\\""
  else if c = '\n' then "\\n"
  else if c = '\r' then "\\r"
  else if c = '\t' then "\\t"
  else if c = '<' then "\\u003C"
  else if c = '>' then "\\u003E"
  else if c = '/' then "\\u002F"
  else if c = '\u2028' then "\\u2028"
  else if c = '\u2029' then "\\u2029"
  else String.singleton c

/-- Membership in the character class of the source regex
`[\r\n\t<>\u2028\u2029"/]` (line 25). -/
def isEscapedChar (c : Char) : Bool :=
  c = '\r' || c = '\n' || c = '\t' || c = '<' || c = '>' ||
  c = '\u2028' || c = '\u2029' || c = '"' || c = '/'

/-- Core of `safeString` (source lines 24-28).  The source calls
`String.prototype.replace` with a regex that has NO global flag, so only
the FIRST character matching the class is replaced by its escape; the
rest of the string is returned untouched. -/
def safeStringAux : List Char → List Char
  | [] => []
  | c :: cs =>
    if isEscapedChar c then (UNICODE_CHARS c).data ++ cs
    else c :: safeStringAux cs

/-- Model of `safeString` from the source (lines 24-28). -/
def safeString (s : String) : String :=
  String.mk (safeStringAux s.data)

mutual

/-- Model of `serialize` from the source (lines 30-49).  The branches appear in the
source's order: `Serializable` instances render their own code text, then
`null`, arrays, plain objects, strings, and finally the template-literal
fallback used for numbers and booleans. -/
def serialize : JSValue → String
  | .serializable r => r
  | .null => "null"
  | .arr xs => "[" ++ String.intercalate "," (serializeList xs) ++ "]"
  | .obj fields => "\x7b" ++ String.intercalate "," (serializeFields fields) ++ "\x7d"
  | .str s => "\"" ++ safeString s ++ "\""
  | .bool b => if b then "true" else "false"
  | .num s => s

/-- The `source.map(serialize)` in the array branch of `serialize`. -/
def serializeList : List JSValue → List String
  | [] => []
  | x :: xs => serialize x :: serializeList xs

/-- The `Object.keys(source).map(...)` in the object branch of
`serialize`: each field renders as `"key": value` with the key passed
through `safeString`. -/
def serializeFields : List (String × JSValue) → List String
  | [] => []
  | f :: fs => ("\"" ++ safeString f.1 ++ "\": " ++ serialize f.2) :: serializeFields fs

end

theorem serializeList_eq_map (xs : List JSValue) :
    serializeList xs = xs.map serialize := by
  induction xs with
  | nil => rfl
  | cons x xs ih => simp [serializeList, ih]

theorem serializeFields_eq_map (fs : List (String × JSValue)) :
    serializeFields fs = fs.map (fun f => "\"" ++ safeString f.1 ++ "\": " ++ serialize f.2) := by
  induction fs with
  | nil => rfl
  | cons f fs ih => simp [serializeFields, ih]

/-- The `cartesian-product` npm dependency used by `multiplex`
(source line 3 / 82).  For a nonempty list of lists it loops over the
first list in the outer loop and recurses on the rest (odometer order);
for the empty list it pushes the single empty tuple. -/
def product {α : Type} : List (List α) → List (List α)
  | [] => [[]]
  | first :: rest => first.flatMap (fun x => (product rest).map (fun tail => x :: tail))

/-- Model of `multiplex` from the source (lines 80-92): the cartesian product of
the option value lists, each tuple re-associated with the keys in
declaration order.  Option sets are association lists, mirroring a JS
object's own key order. -/
def multiplex {α : Type} (options : List (String × List α)) : List (List (String × α)) :=
  (product (options.map Prod.snd)).map (fun entries => (options.map Prod.fst).zip entries)

theorem sum_map_const {α : Type} (l : List α) (c : Nat) :
    (l.map (fun _ => c)).sum = l.length * c := by
  induction l with
  | nil => simp
  | cons a l ih => simp [ih, Nat.succ_mul, Nat.add_comm]

theorem length_product {α : Type} (ls : List (List α)) :
    (product ls).length = (ls.map List.length).prod := by
  induction ls with
  | nil => rfl
  | cons f r ih =>
    simp only [product, List.length_flatMap, Function.comp_def, List.length_map]
    simp [sum_map_const, ih]

theorem mem_product {α : Type} (ls : List (List α)) (l : List α) :
    l ∈ product ls ↔ List.Forall₂ (fun x xs => x ∈ xs) l ls := by
  induction ls generalizing l with
  | nil =>
    simp only [product, List.mem_singleton, List.forall₂_nil_right_iff]
  | cons f r ih =>
    simp only [product, List.mem_flatMap, List.mem_map]
    constructor
    · rintro ⟨x, hx, t, ht, rfl⟩
      exact List.Forall₂.cons hx ((ih t).1 ht)
    · intro h
      cases h with
      | cons hx ht => exact ⟨_, hx, _, (ih _).2 ht, rfl⟩

theorem nodup_product {α : Type} (ls : List (List α)) (h : ∀ l ∈ ls, l.Nodup) :
    (product ls).Nodup := by
  induction ls with
  | nil => simp [product]
  | cons f r ih =>
    rw [product, List.nodup_flatMap]
    refine ⟨fun x _ => ?_, ?_⟩
    · exact (ih (fun l hl => h l (List.mem_cons_of_mem _ hl))).map
        (fun t₁ t₂ e => by injection e)
    · have hf : f.Nodup := h f (List.mem_cons_self f r)
      refine hf.imp ?_
      intro a b hab
      intro l hla hlb
      obtain ⟨t₁, _, rfl⟩ := List.mem_map.1 hla
      obtain ⟨t₂, _, he⟩ := List.mem_map.1 hlb
      injection he with h1 h2
      exact hab h1.symm

theorem length_forall₂_product {α : Type} {ls : List (List α)} {l : List α}
    (h : l ∈ product ls) : l.length = ls.length :=
  ((mem_product ls l).1 h).length_eq

theorem zip_self_eq {κ α : Type} (l : List (κ × α)) :
    (l.map Prod.fst).zip (l.map Prod.snd) = l := by
  induction l with
  | nil => rfl
  | cons p l ih => simp [ih]

theorem zip_left_injective {κ α : Type} (k : List κ) :
    ∀ (e₁ e₂ : List α), e₁.length = k.length → e₂.length = k.length →
      k.zip e₁ = k.zip e₂ → e₁ = e₂ := by
  induction k with
  | nil =>
    intro e₁ e₂ h₁ h₂ _
    rw [List.length_nil, List.length_eq_zero] at h₁ h₂
    rw [h₁, h₂]
  | cons a k ih =>
    intro e₁ e₂ h₁ h₂ hz
    cases e₁ with
    | nil => simp at h₁
    | cons x e₁ =>
      cases e₂ with
      | nil => simp at h₂
      | cons y e₂ =>
        simp only [List.zip_cons_cons, List.cons.injEq, Prod.mk.injEq] at hz
        simp only [List.length_cons, Nat.succ.injEq] at h₁ h₂
        exact by rw [hz.1.2, ih e₁ e₂ h₁ h₂ hz.2]

theorem multiplex_length {α : Type} (options : List (String × List α)) :
    (multiplex options).length = (options.map (fun p => p.2.length)).prod := by
  simp [multiplex, length_product, List.map_map, Function.comp_def]

theorem multiplex_mem_keys {α : Type} (options : List (String × List α))
    (combo : List (String × α)) (h : combo ∈ multiplex options) :
    combo.map Prod.fst = options.map Prod.fst := by
  obtain ⟨entries, hmem, rfl⟩ := List.mem_map.1 h
  have hlen : entries.length = options.length := by
    have := length_forall₂_product hmem
    simpa using this
  rw [List.map_fst_zip]
  simp [hlen]

theorem forall₂_zip_of_mem {α : Type} :
    ∀ (options : List (String × List α)) (entries : List α),
      List.Forall₂ (fun x xs => x ∈ xs) entries (options.map Prod.snd) →
      List.Forall₂ (fun kv p => kv.2 ∈ p.2) ((options.map Prod.fst).zip entries) options := by
  intro options
  induction options with
  | nil =>
    intro entries h
    cases h
    exact List.Forall₂.nil
  | cons p rest ih =>
    intro entries h
    cases entries with
    | nil => cases h
    | cons e es =>
      cases h with
      | cons h1 h2 => exact List.Forall₂.cons h1 (ih es h2)

theorem multiplex_mem_values {α : Type} (options : List (String × List α))
    (combo : List (String × α)) (h : combo ∈ multiplex options) :
    List.Forall₂ (fun kv p => kv.2 ∈ p.2) combo options := by
  obtain ⟨entries, hmem, rfl⟩ := List.mem_map.1 h
  exact forall₂_zip_of_mem options entries ((mem_product _ _).1 hmem)

theorem multiplex_complete {α : Type} (options : List (String × List α))
    (combo : List (String × α))
    (hk : combo.map Prod.fst = options.map Prod.fst)
    (hv : List.Forall₂ (fun kv p => kv.2 ∈ p.2) combo options) :
    combo ∈ multiplex options := by
  refine List.mem_map.2 ⟨combo.map Prod.snd, ?_, ?_⟩
  · rw [mem_product]
    clear hk
    induction hv with
    | nil => exact List.Forall₂.nil
    | cons h1 h2 ih => exact List.Forall₂.cons h1 ih
  · rw [← hk, zip_self_eq]

theorem multiplex_nodup {α : Type} (options : List (String × List α))
    (h : ∀ p ∈ options, p.2.Nodup) :
    (multiplex options).Nodup := by
  have hp : (product (options.map Prod.snd)).Nodup :=
    nodup_product _ (by
      intro l hl
      obtain ⟨p, hpmem, rfl⟩ := List.mem_map.1 hl
      exact h p hpmem)
  refine hp.map_on ?_
  intro e₁ h₁ e₂ h₂ he
  have l₁ : e₁.length = (options.map Prod.fst).length := by
    have := length_forall₂_product h₁; simpa using this
  have l₂ : e₂.length = (options.map Prod.fst).length := by
    have := length_forall₂_product h₂; simpa using this
  exact zip_left_injective _ e₁ e₂ l₁ l₂ he

theorem multiplex_nil {α : Type} :
    multiplex ([] : List (String × List α)) = [[]] := rfl

theorem multiplex_cons {α : Type} (k : String) (vs : List α)
    (rest : List (String × List α)) :
    multiplex ((k, vs) :: rest) =
      vs.flatMap (fun v => (multiplex rest).map (fun combo => (k, v) :: combo)) := by
  simp [multiplex, product, List.map_flatMap, List.map_map, Function.comp_def]

/-- Intrinsic metadata of the source image (`image._meta`, from sharp's
`metadata()`): the fields the loader reads. -/
structure Meta where
  width : ℚ
  height : ℚ
deriving DecidableEq

/-- One sharp operation call, as issued by `transform` (source lines
100-116): the method name together with the argument the loader passes. -/
inductive SharpOp where
  | blur (amount : ℚ)
  | resize (w h : Option ℚ)
  | max (b : Bool)
  | min (b : Bool)
  | crop (gravity : Nat)
  | toFormat (format : String)
deriving DecidableEq

/-- A heap of sharp image handles.  A handle is an index; its state is the
list of operations applied to it so far.  sharp methods mutate the handle
in place and return it, which `transform`'s reduce relies on. -/
abbrev SharpStore := List (List SharpOp)

/-- The operation trace of a handle. -/
def traceOf (s : SharpStore) (h : Nat) : List SharpOp :=
  (s[h]?).getD []

/-- Model of `image.clone()`: allocate a fresh handle with a copy of the image's
state. -/
def clone (s : SharpStore) (h : Nat) : SharpStore × Nat :=
  (s ++ [traceOf s h], s.length)

/-- Model of `image[key].apply(image, value)`: record one operation call on a
handle. -/
def applyOp (s : SharpStore) (h : Nat) (op : SharpOp) : SharpStore :=
  s.set h (traceOf s h ++ [op])

/-- The options object built by `normalizeSharpOptions` (source lines
139-175).  An `Option` field is `some` exactly when the corresponding key
is present on the JS object, which is what `key in options` tests.
`blur` is accepted by `transform` but never set by
`normalizeSharpOptions`. -/
structure TransformSpec where
  toFormat : Option String := none
  resize : Option (Option ℚ × Option ℚ) := none
  blur : Option ℚ := none
  max : Option Bool := none
  min : Option Bool := none
  crop : Option Nat := none
  inline : Bool := false
deriving DecidableEq

/-- The key list `transform` reduces over, in source order (lines
101-107). -/
def transformKeys : List String :=
  ["blur", "resize", "max", "min", "crop", "toFormat"]

/-- Model of `key in options` together with the call `image[key](value)`: the
operation performed for a key when it is present on the spec, `none` when
the key is absent.  `resize` is stored as a two-element array and spread
into two arguments; the other values are wrapped in a singleton argument
list. -/
def specGet (o : TransformSpec) : String → Option SharpOp
  | "blur" => o.blur.map SharpOp.blur
  | "resize" => o.resize.map (fun p => SharpOp.resize p.1 p.2)
  | "max" => o.max.map SharpOp.max
  | "min" => o.min.map SharpOp.min
  | "crop" => o.crop.map SharpOp.crop
  | "toFormat" => o.toFormat.map SharpOp.toFormat
  | _ => none

/-- One step of `transform`'s reduce. -/
def transformStep (o : TransformSpec) (h : Nat) (st : SharpStore) (key : String) : SharpStore :=
  match specGet o key with
  | some op => applyOp st h op
  | none => st

/-- Model of `transform` from the source (lines 100-116): clone the image, then
reduce over the fixed key list, applying the operation for every key
present on the options object and skipping absent keys.  Returns the
updated heap and the handle holding the result. -/
def transform (s : SharpStore) (image : Nat) (options : TransformSpec) : SharpStore × Nat :=
  let c := clone s image
  (transformKeys.foldl (transformStep options c.2) c.1, c.2)

/-- Value of `sharp.gravity.center`. -/
def gravityCenter : Nat := 0

/-- The combination-level option fields read by `normalizeSharpOptions`.
Numeric fields model the values after `normalizeProperty`'s `Number`
coercion; `inline` models the truthiness of `options.inline`, which is all
`!!options.inline` keeps of it. -/
structure CombinationOptions where
  format : Option String := none
  width : Option ℚ := none
  height : Option ℚ := none
  density : Option ℚ := none
  mode : Option String := none
  inline : Bool := false
deriving DecidableEq

/-- The un-expanded base declaration (third argument of
`normalizeSharpOptions`); the loader only reads its `density` list. -/
structure BaseDeclaration where
  density : List ℚ
deriving DecidableEq

/-- JS truthiness of a possibly-absent number: absent (`undefined`) and
`0` are falsy.  (`NaN` is also falsy in JS; `ℚ` has no `NaN`.) -/
def truthyN : Option ℚ → Bool
  | none => false
  | some q => decide (q ≠ 0)

/-- JS truthiness of a possibly-absent string: absent and `""` are
falsy. -/
def truthyS : Option String → Bool
  | none => false
  | some s => decide (s ≠ "")

/-- Model of `Math.max(...l)` for a nonempty list.  `Math.max()` of an empty spread
is `-Infinity`, which has no `ℚ` counterpart; the `[]` case is never
reached in the claims, all of which concern declared (nonempty) density
lists. -/
def jsMathMax (l : List ℚ) : ℚ :=
  match l with
  | [] => 0
  | x :: xs => xs.foldl max x

/-- Model of `normalizeSharpOptions` from the source (lines 139-175).  The
`switch` on `options.mode` is modelled by the equivalent strict-equality
if-chain. -/
def normalizeSharpOptions (options : CombinationOptions) (meta : Meta)
    (base : BaseDeclaration) : TransformSpec :=
  let r : TransformSpec := {}
  let r := if truthyS options.format then { r with toFormat := options.format } else r
  let r := if truthyN options.width || truthyN options.height then
      { r with resize := some (options.width, options.height) }
    else r
  let r := if truthyN options.density then
      let intrinsic := jsMathMax base.density
      let density := options.density.getD 0
      let w := some (meta.width * (density / intrinsic))
      let h := some (meta.height * (density / intrinsic))
      { r with resize := some (w, h) }
    else r
  let r := if options.mode = some "cover" then { r with min := some true }
    else if options.mode = some "contain" then { r with max := some true }
    else { r with crop := some gravityCenter }
  { r with inline := options.inline }

theorem length_applyOp (st : SharpStore) (h : Nat) (op : SharpOp) :
    (applyOp st h op).length = st.length := by
  simp [applyOp]

theorem traceOf_applyOp_self (st : SharpStore) (h : Nat) (op : SharpOp)
    (hlt : h < st.length) :
    traceOf (applyOp st h op) h = traceOf st h ++ [op] := by
  unfold applyOp traceOf
  rw [List.getElem?_set_eq_of_lt _ hlt]
  rfl

theorem traceOf_applyOp_ne (st : SharpStore) (h j : Nat) (op : SharpOp)
    (hne : h ≠ j) :
    traceOf (applyOp st h op) j = traceOf st j := by
  unfold applyOp traceOf
  rw [List.getElem?_set_ne hne]

theorem traceOf_append_lt (s : SharpStore) (t : List SharpOp) (j : Nat)
    (hj : j < s.length) :
    traceOf (s ++ [t]) j = traceOf s j := by
  unfold traceOf
  rw [List.getElem?_append_left hj]

theorem traceOf_append_len (s : SharpStore) (t : List SharpOp) :
    traceOf (s ++ [t]) s.length = t := by
  unfold traceOf
  rw [List.getElem?_concat_length]
  rfl

theorem foldl_transformStep (o : TransformSpec) (hh : Nat) :
    ∀ (keys : List String) (st : SharpStore), hh < st.length →
      traceOf (keys.foldl (transformStep o hh) st) hh
          = traceOf st hh ++ keys.filterMap (specGet o)
        ∧ (keys.foldl (transformStep o hh) st).length = st.length := by
  intro keys
  induction keys with
  | nil => intro st h; simp
  | cons k ks ih =>
    intro st h
    simp only [List.foldl_cons, List.filterMap_cons]
    cases hop : specGet o k with
    | none =>
      have := ih st h
      simp [transformStep, hop, this.1, this.2]
    | some op =>
      have hlen : (applyOp st hh op).length = st.length := length_applyOp st hh op
      have h2 : hh < (applyOp st hh op).length := by rw [hlen]; exact h
      obtain ⟨ht, hl⟩ := ih (applyOp st hh op) h2
      constructor
      · rw [transformStep, hop]
        simp only
        rw [ht, traceOf_applyOp_self st hh op h]
        simp
      · rw [transformStep, hop]
        simp only
        rw [hl, hlen]

theorem foldl_transformStep_other (o : TransformSpec) (hh j : Nat) (hne : hh ≠ j) :
    ∀ (keys : List String) (st : SharpStore),
      traceOf (keys.foldl (transformStep o hh) st) j = traceOf st j := by
  intro keys
  induction keys with
  | nil => intro st; rfl
  | cons k ks ih =>
    intro st
    simp only [List.foldl_cons]
    cases hop : specGet o k with
    | none => simp [transformStep, hop, ih]
    | some op =>
      rw [transformStep, hop]
      simp only
      rw [ih (applyOp st hh op), traceOf_applyOp_ne st hh j op hne]

/-- The operations `transform` performs for a given spec, in its fixed key
order. -/
theorem filterMap_specGet (o : TransformSpec) :
    transformKeys.filterMap (specGet o) =
      (o.blur.map SharpOp.blur).toList
        ++ (o.resize.map (fun p => SharpOp.resize p.1 p.2)).toList
        ++ (o.max.map SharpOp.max).toList
        ++ (o.min.map SharpOp.min).toList
        ++ (o.crop.map SharpOp.crop).toList
        ++ (o.toFormat.map SharpOp.toFormat).toList := by
  rcases o with ⟨tf, rs, bl, mx, mn, cr, il⟩
  cases bl <;> cases rs <;> cases mx <;> cases mn <;> cases cr <;> cases tf <;> rfl

mutual

/-- JS string coercion as performed by a template literal, for the values
the loader may interpolate: plain objects (and `Serializable` instances,
which define no custom `toString`) print as `[object Object]`; arrays
join their elements with commas.  (Array holes and nested null elements
print as empty text in JS; no claim exercises them.) -/
def jsToString : JSValue → String
  | .obj _ => "[object Object]"
  | .serializable _ => "[object Object]"
  | .str s => s
  | .num s => s
  | .bool b => if b then "true" else "false"
  | .null => "null"
  | .arr xs => String.intercalate "," (jsToStringList xs)

/-- Element-wise coercion for the array case of `jsToString`. -/
def jsToStringList : List JSValue → List String
  | [] => []
  | x :: xs => jsToString x :: jsToStringList xs

end

/-- Strip leading zeros from a digit string, keeping a single `0`. -/
def canonicalDigits (s : String) : String :=
  let t := s.data.dropWhile (fun c => c = '0')
  if t.isEmpty then "0" else String.mk t

/-- Model of `Number(s)` on a string, rendered as literal text.  The empty string
coerces to `0` and all-digit strings parse; other shapes (signs,
decimals, exponents, surrounding whitespace) are not modelled and render
as `NaN` — no claim depends on them. -/
def jsNumberText (s : String) : String :=
  if s = "" then "0"
  else if s.data.all Char.isDigit then canonicalDigits s
  else "NaN"

/-- Model of the `Number(value)` coercion used by `normalizeProperty`. -/
def jsNumber : JSValue → JSValue
  | .num s => .num s
  | .str s => .num (jsNumberText s)
  | .bool b => .num (if b then "1" else "0")
  | .null => .num "0"
  | .arr _ => .num "NaN"
  | .obj _ => .num "NaN"
  | .serializable _ => .num "NaN"

/-- Model of `normalizeProperty` from the source (lines 51-61): the keys
`density`, `blur`, `width`, `height` are coerced to numbers, every other
key passes through unchanged. -/
def normalizeProperty (key : String) (value : JSValue) : JSValue :=
  if key = "density" || key = "blur" || key = "width" || key = "height" then
    jsNumber value
  else value

/-- A raw preset option value: a scalar, an array of scalars, or a
value-producing function of the image metadata (the argument
`normalizePreset` is invoked with). -/
inductive PresetRaw where
  | val (v : JSValue)
  | list (vs : List JSValue)
  | func (f : Meta → PresetRaw)

/-- The inner `normalize` of `normalizePreset` (source lines 64-71):
functions are invoked on the context arguments and their result is
normalized recursively; arrays are coerced element-wise; any other value
is wrapped in a one-element array. -/
def normalizeValue (meta : Meta) (key : String) : PresetRaw → List JSValue
  | .func f => normalizeValue meta key (f meta)
  | .list vs => vs.map (normalizeProperty key)
  | .val v => [normalizeProperty key v]

/-- Model of `normalizePreset` from the source (lines 63-78). -/
def normalizePreset (options : List (String × PresetRaw)) (meta : Meta) :
    List (String × List JSValue) :=
  options.map (fun p => (p.1, normalizeValue meta p.1 p.2))

/-- Model of `handle` from the source (lines 248-260).  The object literal
`{...presets[name], preset}` spreads the declared preset (spreading
`undefined` adds nothing) and then adds a `preset` key holding the
invocation's extra-options argument — the parameter the source names
`preset`.  When `name` is truthy but absent from the table, the source
returns a single rejected promise carrying the template literal
`No such preset: ${preset}` — note that it interpolates the extra-options
parameter `preset`, not `name`; the whole invocation then fails, which is
modelled by `Except.error` on that message.  Otherwise each multiplexed
combination is passed to `emit`; the ok value is that combination
list. -/
def handle (preset : JSValue) (name : Option String)
    (presets : List (String × List (String × PresetRaw))) (meta : Meta) :
    Except String (List (List (String × JSValue))) :=
  let declared := match name with
    | some nm => presets.lookup nm
    | none => none
  let base := normalizePreset ((declared.getD []) ++ [("preset", PresetRaw.val preset)]) meta
  if truthyS name && declared.isNone then
    Except.error ("No such preset: " ++ jsToString preset)
  else
    Except.ok (multiplex base)

/-- Model of `extension` from the source (lines 123-129): the object-literal
lookup is defined only for `webp`, `jpeg` and `png`; any other format
yields `undefined`, modelled as `none`. -/
def extension (type : String) : Option String :=
  if type = "webp" then some ".webp"
  else if type = "jpeg" then some ".jpg"
  else if type = "png" then some ".png"
  else none

/-- The last `.` of a character list, split into the text before the dot
and the (dot-free) text after it; `none` when there is no dot.  This is
the match of the regex `\.[^.]+$` once the suffix is known nonempty. -/
def splitLastDot : List Char → Option (List Char × List Char)
  | [] => none
  | c :: cs =>
    match splitLastDot cs with
    | some (pre, post) => some (c :: pre, post)
    | none => if c = '.' then some ([], cs) else none

/-- Model of `path.replace(/\.[^.]+$/, repl)`: replace the final extension
(including its dot) by `repl`; a path without a dot, or ending in a dot,
has no match and is returned unchanged. -/
def replaceLastExtension (path repl : String) : String :=
  match splitLastDot path.data with
  | some (pre, post) => if post.isEmpty then path else String.mk pre ++ repl
  | none => path

/-- The `resourcePath` built inside `name` (source lines 194-196):
`loader.resourcePath.replace(/\.[^.]+$/, extension(info.format))`.  When
`extension` yields `undefined`, `String.prototype.replace` coerces the
replacement to the literal text `undefined`. -/
def nameResourcePath (resourcePath : String) (format : String) : String :=
  replaceLastExtension resourcePath
    (match extension format with
      | some e => e
      | none => "undefined")

/-- A produced image buffer; `base64` is the text
`image.toString('base64')` produces for it (base64 encoding itself is a
Node capability, not loader code). -/
structure Buffer where
  base64 : String
deriving DecidableEq

/-- The asset record built by `data` (source lines 204-226), restricted
to the fields the claims are about; the spreads of the combination
options and of sharp's `info` contribute the remaining fields. -/
structure DataAsset where
  type : Option String
  preset : Option String
  name : String
  url : JSValue

/-- Model of `data` from the source (lines 204-226).  `n` stands for the already
computed `name(image, info, options, preset)`; `mimeGetType` is the
external `mime.getType` capability; `inlineTruthy` is the truthiness of
`options.inline`, which is all both uses test.  When a data URI is built,
`Array.prototype.join` renders a `null` mime type as empty text.  The
second component records the `loader.emitFile(n, image)` request made
exactly when `options.inline` is falsy. -/
def data (mimeGetType : String → Option String) (image : Buffer) (n : String)
    (inlineTruthy : Bool) (preset : Option String) :
    DataAsset × Option (String × Buffer) :=
  let type := mimeGetType n
  let result : DataAsset :=
    { type := type
      preset := preset
      name := n
      url := if inlineTruthy then
          JSValue.str ("data:" ++ type.getD "" ++ ";base64," ++ image.base64)
        else
          JSValue.serializable ("__webpack_public_path__ + " ++ serialize (JSValue.str n)) }
  (result, if inlineTruthy then none else some (n, image))

/-- Claim C1 (code bug): the escaping rule demands that EVERY occurrence
of an escapable character be replaced, but `safeString`'s regex lacks the
global flag and replaces only the first match.  On `"//"` the first slash
is escaped and the second survives verbatim, so the serialized output of
the string contains an unescaped `/`. -/
theorem C1_escape_first_only :
    safeString "//" = "\\u002F/" ∧
    safeString "//" ≠ "\\u002F\\u002F" ∧
    '/' ∈ (serialize (JSValue.str "//")).data := by
  refine ⟨by decide, by decide, by decide⟩

/-- Claim C2 (confirmed): `multiplex` yields exactly the product of the
value-sequence lengths, every returned combination is a full mapping
(its keys are the option keys in declaration order and each value is
drawn from that key's sequence), every such full mapping occurs, the
result has no duplicates when the value sequences have none, the empty
option set yields exactly the empty mapping, and enumeration follows
odometer order: the outer loop runs over the first key's values. -/
theorem C2_multiplex_cartesian (α : Type) :
    (∀ options : List (String × List α),
        (multiplex options).length = (options.map (fun p => p.2.length)).prod) ∧
    (∀ (options : List (String × List α)) (combo : List (String × α)),
        combo ∈ multiplex options →
          combo.map Prod.fst = options.map Prod.fst ∧
          List.Forall₂ (fun kv p => kv.2 ∈ p.2) combo options) ∧
    (∀ (options : List (String × List α)) (combo : List (String × α)),
        combo.map Prod.fst = options.map Prod.fst →
        List.Forall₂ (fun kv p => kv.2 ∈ p.2) combo options →
        combo ∈ multiplex options) ∧
    (∀ options : List (String × List α),
        (∀ p ∈ options, p.2.Nodup) → (multiplex options).Nodup) ∧
    multiplex ([] : List (String × List α)) = [[]] ∧
    (∀ (k : String) (vs : List α) (rest : List (String × List α)),
        multiplex ((k, vs) :: rest)
          = vs.flatMap (fun v => (multiplex rest).map (fun combo => (k, v) :: combo))) :=
  ⟨multiplex_length,
   fun o c h => ⟨multiplex_mem_keys o c h, multiplex_mem_values o c h⟩,
   multiplex_complete,
   multiplex_nodup,
   multiplex_nil,
   multiplex_cons⟩

theorem C2_multiplex_cartesian_witness :
    (multiplex [("format", ["webp", "jpeg"]), ("density", ["1", "2"])]).length
        = ([("format", ["webp", "jpeg"]), ("density", ["1", "2"])].map
            (fun p => p.2.length)).prod ∧
    (multiplex [("format", ["webp", "jpeg"]), ("density", ["1", "2"])]).Nodup :=
  ⟨(C2_multiplex_cartesian String).1 _,
   (C2_multiplex_cartesian String).2.2.2.1 _ (by decide)⟩

/-- Claim C3 (confirmed): `transform` applies exactly the operations whose
keys are present on the built spec, in the fixed order blur, resize, max,
min, crop, toFormat, each on the output of the previous one (the
resulting handle's trace extends the cloned image's trace by that
operation list); keys absent from the spec are skipped entirely. -/
theorem C3_transform_fixed_order :
    ∀ (s : SharpStore) (image : Nat) (o : TransformSpec),
      traceOf (transform s image o).1 (transform s image o).2
        = traceOf s image
            ++ (o.blur.map SharpOp.blur).toList
            ++ (o.resize.map (fun p => SharpOp.resize p.1 p.2)).toList
            ++ (o.max.map SharpOp.max).toList
            ++ (o.min.map SharpOp.min).toList
            ++ (o.crop.map SharpOp.crop).toList
            ++ (o.toFormat.map SharpOp.toFormat).toList := by
  intro s image o
  have hlen : s.length < (s ++ [traceOf s image]).length := by simp
  have h := (foldl_transformStep o s.length transformKeys (s ++ [traceOf s image]) hlen).1
  show traceOf (transformKeys.foldl (transformStep o s.length) (s ++ [traceOf s image])) s.length
      = _
  rw [h, traceOf_append_len, filterMap_specGet]
  simp [List.append_assoc]

/-- Claim C4 is false as stated: a combination whose `density` option is
set to `0` is "set", yet the truthiness test `if (options.density)` skips
the density branch, so a width/height resize survives instead of the
density formula. -/
theorem C4_density_zero_counterexample :
    ({ width := some 10, density := some 0 } : CombinationOptions).density = some 0 ∧
    (normalizeSharpOptions { width := some 10, density := some 0 } ⟨100, 100⟩ ⟨[2]⟩).resize
      = some (some 10, none) ∧
    (normalizeSharpOptions { width := some 10, density := some 0 } ⟨100, 100⟩ ⟨[2]⟩).resize
      ≠ some (some ((100 : ℚ) * (0 / jsMathMax [2])), some ((100 : ℚ) * (0 / jsMathMax [2]))) := by
  have hval :
      (normalizeSharpOptions { width := some 10, density := some 0 } ⟨100, 100⟩ ⟨[2]⟩).resize
        = some (some 10, none) := by decide
  refine ⟨rfl, hval, ?_⟩
  rw [hval]
  have h0 : (100 : ℚ) * (0 / jsMathMax [2]) = 0 := by simp
  rw [h0]
  simp

/-- Claim C4 (amended, confirmed): whenever the combination's `density`
option is set to a nonzero (truthy) value, the built spec's resize is
`(intrinsicWidth * density / max(declared densities), intrinsicHeight *
density / max(declared densities))`, overriding any width/height
resize. -/
theorem C4_density_override (o : CombinationOptions) (m : Meta) (b : BaseDeclaration)
    (d : ℚ) (hd : o.density = some d) (hnz : d ≠ 0) :
    (normalizeSharpOptions o m b).resize
      = some (some (m.width * (d / jsMathMax b.density)),
          some (m.height * (d / jsMathMax b.density))) := by
  simp only [normalizeSharpOptions, hd, truthyN]
  simp [apply_ite TransformSpec.resize, hnz]

theorem C4_density_override_witness :
    ({ density := some 2 } : CombinationOptions).density = some 2 ∧
    (normalizeSharpOptions { density := some 2 } ⟨100, 50⟩ ⟨[1, 2]⟩).resize
      = some (some ((100 : ℚ) * (2 / jsMathMax [1, 2])),
          some ((50 : ℚ) * (2 / jsMathMax [1, 2]))) :=
  ⟨rfl, C4_density_override _ _ _ 2 rfl (by decide)⟩

/-- Claim C5 (code bug): selecting the unknown preset name
`doesnotexist` does fail the whole invocation immediately, but the
rejection message interpolates the extra-options object (the parameter
the source names `preset`), not the missing name: the message is
`No such preset: [object Object]` and does not mention
`doesnotexist` at all. -/
theorem C5_unknown_preset_message :
    handle (JSValue.obj []) (some "doesnotexist")
        [("thumbnail", [("width", PresetRaw.val (JSValue.num "100"))])] ⟨100, 100⟩
      = Except.error "No such preset: [object Object]" ∧
    ¬ List.IsInfix "doesnotexist".data ("No such preset: [object Object]").data := by
  refine ⟨rfl, by decide⟩

/-- Claim C6 (confirmed): with a truthy `inline` option the asset's `url`
is the literal string `data:<mime>;base64,<bytes>` and no file emission
is requested; with `inline` falsy or absent the `url` is a Serializable
expression rendering `__webpack_public_path__ + <serialized name>` and a
file emission request pairs that same computed name with the produced
bytes. -/
theorem C6_inline_delivery :
    ∀ (mime : String → Option String) (image : Buffer) (n : String) (p : Option String),
      (data mime image n true p).1.url
          = JSValue.str ("data:" ++ (mime n).getD "" ++ ";base64," ++ image.base64) ∧
      (data mime image n true p).2 = none ∧
      (data mime image n false p).1.url
          = JSValue.serializable ("__webpack_public_path__ + " ++ serialize (JSValue.str n)) ∧
      (data mime image n false p).1.name = n ∧
      (data mime image n false p).2 = some (n, image) :=
  fun _ _ _ _ => ⟨rfl, rfl, rfl, rfl, rfl⟩

/-- Claim C7 (confirmed): `serialize` renders `null` as the null token,
arrays as bracketed comma-joined recursive renders in order, objects as
brace-delimited `"key": value` pairs in the object's own key order with
no reordering or deduplication, strings as quoted escaped literals,
numbers and booleans as their literal text, and Serializable values as
their own pre-rendered code text, unquoted and unescaped. -/
theorem C7_serialize_rendering :
    serialize JSValue.null = "null" ∧
    (∀ xs : List JSValue,
        serialize (JSValue.arr xs)
          = "[" ++ String.intercalate "," (xs.map serialize) ++ "]") ∧
    (∀ fields : List (String × JSValue),
        serialize (JSValue.obj fields)
          = "\x7b" ++ String.intercalate ","
              (fields.map (fun f => "\"" ++ safeString f.1 ++ "\": " ++ serialize f.2))
              ++ "\x7d") ∧
    (∀ s, serialize (JSValue.str s) = "\"" ++ safeString s ++ "\"") ∧
    (∀ s, serialize (JSValue.num s) = s) ∧
    (∀ b, serialize (JSValue.bool b) = if b then "true" else "false") ∧
    (∀ r, serialize (JSValue.serializable r) = r) := by
  refine ⟨rfl, ?_, ?_, fun s => rfl, fun s => rfl, fun b => rfl, fun r => rfl⟩
  · intro xs
    rw [serialize, serializeList_eq_map]
  · intro fields
    rw [serialize, serializeFields_eq_map]

/-- Claim C8 (confirmed): the fit strategy of the built spec is selected
solely by `mode` — `cover` enables min-constrain, `contain` enables
max-constrain, anything else (including an absent mode) enables
crop-to-center — and the preset `mode: contain, width: 50, height: 50`
produces exactly the trace resize(50,50) followed by one `max` call and
no `crop` call. -/
theorem C8_mode_selects_fit :
    (∀ (o : CombinationOptions) (m : Meta) (b : BaseDeclaration),
      (o.mode = some "cover" →
        (normalizeSharpOptions o m b).min = some true ∧
        (normalizeSharpOptions o m b).max = none ∧
        (normalizeSharpOptions o m b).crop = none) ∧
      (o.mode = some "contain" →
        (normalizeSharpOptions o m b).max = some true ∧
        (normalizeSharpOptions o m b).min = none ∧
        (normalizeSharpOptions o m b).crop = none) ∧
      (o.mode ≠ some "cover" → o.mode ≠ some "contain" →
        (normalizeSharpOptions o m b).crop = some gravityCenter ∧
        (normalizeSharpOptions o m b).min = none ∧
        (normalizeSharpOptions o m b).max = none)) ∧
    traceOf
        (transform [[]] 0
          (normalizeSharpOptions { mode := some "contain", width := some 50, height := some 50 }
            ⟨100, 100⟩ ⟨[1]⟩)).1
        (transform [[]] 0
          (normalizeSharpOptions { mode := some "contain", width := some 50, height := some 50 }
            ⟨100, 100⟩ ⟨[1]⟩)).2
      = [SharpOp.resize (some 50) (some 50), SharpOp.max true] := by
  constructor
  · intro o m b
    refine ⟨fun hm => ?_, fun hm => ?_, fun h1 h2 => ?_⟩
    · simp only [normalizeSharpOptions, hm]
      split_ifs <;> simp
    · simp only [normalizeSharpOptions, hm]
      split_ifs <;> simp_all
    · simp only [normalizeSharpOptions]
      simp only [h1, h2, if_false]
      split_ifs <;> simp
  · decide

theorem C8_mode_selects_fit_witness :
    (normalizeSharpOptions { mode := some "cover" } ⟨1, 1⟩ ⟨[1]⟩).min = some true ∧
    (normalizeSharpOptions { mode := some "cover" } ⟨1, 1⟩ ⟨[1]⟩).max = none ∧
    (normalizeSharpOptions { mode := some "cover" } ⟨1, 1⟩ ⟨[1]⟩).crop = none :=
  (C8_mode_selects_fit.1 { mode := some "cover" } ⟨1, 1⟩ ⟨[1]⟩).1 rfl

/-- Claim C9 (confirmed): `transform` operates on a fresh clone of the
supplied handle — after a transform the original handle's operation trace
is unchanged and the returned handle is a different one — so each
combination's operations leave the shared source image untouched. -/
theorem C9_transform_clones (s : SharpStore) (image : Nat) (o : TransformSpec)
    (h : image < s.length) :
    traceOf (transform s image o).1 image = traceOf s image ∧
    (transform s image o).2 ≠ image := by
  have hne : s.length ≠ image := Nat.ne_of_gt h
  constructor
  · show traceOf (transformKeys.foldl (transformStep o s.length) (s ++ [traceOf s image])) image
        = _
    rw [foldl_transformStep_other o s.length image hne, traceOf_append_lt s _ image h]
  · exact hne

theorem C9_transform_clones_witness :
    0 < ([[SharpOp.blur 1]] : SharpStore).length ∧
    traceOf (transform [[SharpOp.blur 1]] 0 { crop := some 0 }).1 0
        = traceOf [[SharpOp.blur 1]] 0 ∧
    (transform [[SharpOp.blur 1]] 0 { crop := some 0 }).2 ≠ 0 :=
  ⟨by decide,
   (C9_transform_clones [[SharpOp.blur 1]] 0 { crop := some 0 } (by decide)).1,
   (C9_transform_clones [[SharpOp.blur 1]] 0 { crop := some 0 } (by decide)).2⟩

/-- Claim C10 (confirmed): the extension table knows only `webp`, `jpeg`
and `png`; every other produced format looks up to `undefined`, and the
`replace` on the loader's resource path then substitutes the literal text
`undefined` for the file extension. -/
theorem C10_extension_undefined :
    extension "webp" = some ".webp" ∧
    extension "jpeg" = some ".jpg" ∧
    extension "png" = some ".png" ∧
    (∀ t : String, t ≠ "webp" → t ≠ "jpeg" → t ≠ "png" → extension t = none) ∧
    (∀ (path t : String), t ≠ "webp" → t ≠ "jpeg" → t ≠ "png" →
        nameResourcePath path t = replaceLastExtension path "undefined") ∧
    nameResourcePath "/images/photo.gif" "gif" = "/images/photoundefined" := by
  refine ⟨rfl, rfl, rfl, ?_, ?_, by decide⟩
  · intro t h1 h2 h3
    simp [extension, h1, h2, h3]
  · intro path t h1 h2 h3
    simp [nameResourcePath, extension, h1, h2, h3]

theorem C10_extension_undefined_witness :
    extension "gif" = none ∧
    nameResourcePath "/images/photo.gif" "gif"
      = replaceLastExtension "/images/photo.gif" "undefined" :=
  ⟨C10_extension_undefined.2.2.2.1 "gif" (by decide) (by decide) (by decide),
   C10_extension_undefined.2.2.2.2.1 "/images/photo.gif" "gif"
     (by decide) (by decide) (by decide)⟩

end SharpLoader
